import Mathlib

/-!
Verification of the so-tag-sentiment-analysis aggregation tool
(analyze-question-sentiment.go).

Modelling conventions:
- Go `time.Time` instants are modelled as `Int`: the number of seconds since
  0001-01-01 00:00:00 UTC (Go's internal representation). `t.IsZero()` is
  `t = 0`, `Before` is `<`, `After` is `>`.
- `time.Unix(u, 0)` is `timeUnix u = u + 62135596800` (Go's unixToInternal).
- Calendar arithmetic (`AddDate(0,1,0)`, `time.Date` normalization) follows
  Go's proleptic Gregorian calendar, implemented with the standard
  civil-from-days / days-from-civil algorithms (epoch 1970-01-01 = day 0).
- Go's `int` counters only ever grow from 0 by 1, so they are `Nat`.
- `float64` ratio values are modelled exactly: `RatioVal.nan` for 0/0,
  `RatioVal.inf` for x/0 with x > 0, and `RatioVal.val q` carrying the exact
  rational that the float64 division approximates.
-/

namespace SOTag

/-- Days from 1970-01-01 to the civil date (y, m, d), proleptic Gregorian
(the calendar Go's time package uses). Standard days-from-civil algorithm. -/
def daysFromCivil (y m d : Int) : Int :=
  let y1 := if m ≤ 2 then y - 1 else y
  let era := Int.fdiv y1 400
  let yoe := y1 - era * 400
  let mp := if m > 2 then m - 3 else m + 9
  let doy := Int.fdiv (153 * mp + 2) 5 + d - 1
  let doe := yoe * 365 + Int.fdiv yoe 4 - Int.fdiv yoe 100 + doy
  era * 146097 + doe - 719468

/-- Civil date (y, m, d) of the day that is `z0` days after 1970-01-01.
Standard civil-from-days algorithm, inverse of `daysFromCivil`. -/
def civilFromDays (z0 : Int) : Int × Int × Int :=
  let z := z0 + 719468
  let era := Int.fdiv z 146097
  let doe := z - era * 146097
  let yoe := Int.fdiv (doe - Int.fdiv doe 1460 + Int.fdiv doe 36524 - Int.fdiv doe 146096) 365
  let y := yoe + era * 400
  let doy := doe - (365 * yoe + Int.fdiv yoe 4 - Int.fdiv yoe 100)
  let mp := Int.fdiv (5 * doy + 2) 153
  let d := doy - Int.fdiv (153 * mp + 2) 5 + 1
  let m := if mp < 10 then mp + 3 else mp - 9
  (if m ≤ 2 then y + 1 else y, m, d)

/-- Go internal seconds (since 0001-01-01 UTC) of midnight UTC on (y, m, d):
the value of `time.Date(y, m, d, 0,0,0,0, time.UTC)`. 719162 days separate
0001-01-01 from 1970-01-01 (Go's unixToInternal / 86400). -/
def dateSec (y m d : Int) : Int :=
  86400 * (daysFromCivil y m d + 719162)

/-- `time.Unix(u, 0)` as internal seconds. -/
def timeUnix (u : Int) : Int :=
  u + 62135596800

/-- Go's `norm(year, month, 12)` month normalization: bring a 1-based month
into [1, 12], carrying into the year. -/
def normMonth (y m : Int) : Int × Int :=
  (y + Int.fdiv (m - 1) 12, (m - 1) % 12 + 1)

/-- `t.AddDate(0, 1, 0)` on internal seconds: split into day and time-of-day,
take the civil date, add one month (Go normalizes the month and lets the day
spill arithmetically past the end of the shorter month: the instant is
first-of-normalized-month plus (day - 1) days). -/
def addMonthGo (t : Int) : Int :=
  let dn := Int.fdiv t 86400 - 719162
  let rem := t % 86400
  let c := civilFromDays dn
  let ym := normMonth c.1 (c.2.1 + 1)
  86400 * (daysFromCivil ym.1 ym.2 1 + (c.2.2 - 1) + 719162) + rem

def isLeapYear (y : Int) : Bool :=
  y % 4 = 0 ∧ (y % 100 ≠ 0 ∨ y % 400 = 0)

/-- Go's `daysIn(m, year)` for m in [1,12]. -/
def daysInMonth (y m : Int) : Int :=
  if m = 2 then (if isLeapYear y then 29 else 28)
  else if m = 4 ∨ m = 6 ∨ m = 9 ∨ m = 11 then 30
  else 31

def digitVal (c : Char) : Int :=
  (c.toNat : Int) - 48

def isDigitCh (c : Char) : Bool :=
  48 ≤ c.toNat ∧ c.toNat ≤ 57

/-- Go's `time.Parse("2006-01-02", s)` acceptance and value: exactly four
digits, a dash, two digits (month, checked to be in [1,12]), a dash, two
digits (day, checked against the month's length), and nothing after.
Returns the civil date on success, none on any parse error. -/
def parseYMD (s : String) : Option (Int × Int × Int) :=
  match s.toList with
  | [y1, y2, y3, y4, h1, m1, m2, h2, d1, d2] =>
    if isDigitCh y1 ∧ isDigitCh y2 ∧ isDigitCh y3 ∧ isDigitCh y4 ∧ h1 = '-' ∧
       isDigitCh m1 ∧ isDigitCh m2 ∧ h2 = '-' ∧ isDigitCh d1 ∧ isDigitCh d2 then
      let y := digitVal y1 * 1000 + digitVal y2 * 100 + digitVal y3 * 10 + digitVal y4
      let mo := digitVal m1 * 10 + digitVal m2
      let da := digitVal d1 * 10 + digitVal d2
      if 1 ≤ mo ∧ mo ≤ 12 ∧ 1 ≤ da ∧ da ≤ daysInMonth y mo then
        some (y, mo, da)
      else none
    else none
  | _ => none

/-- `parseDate` from the source: parse as YYYY-MM-DD; on any error return the
zero time (here the internal-seconds value 0). -/
def parseDate (s : String) : Int :=
  match parseYMD s with
  | some c => dateSec c.1 c.2.1 c.2.2
  | none => 0

/-- The fields of one `items` element that the aggregation reads.
`creationDate` and `closedDate` are Unix epoch seconds as in the JSON;
a question that is not closed has `closedDate = 0`. -/
structure Item where
  score : Int
  closedDate : Int
  creationDate : Int
deriving DecidableEq, Repr

/-- One directory entry of `baseDir/tag`: its file name and, when parsed as a
snapshot, the `items` of its `Reply`. -/
structure SnapEntry where
  name : String
  items : List Item
deriving DecidableEq, Repr

structure tagAnalysisResult where
  total : Nat
  negative : Nat
  closed : Nat
  closedAndNegative : Nat
  minDate : Int
  maxDate : Int
deriving DecidableEq, Repr

def emptyResult : tagAnalysisResult :=
  { total := 0, negative := 0, closed := 0, closedAndNegative := 0, minDate := 0, maxDate := 0 }

/-- The two `continue` guards of the item loop: the item is kept unless a
non-zero `fromDate` lies after it or a non-zero `toDate` lies before it. -/
def windowAccept (itemDate fromDate toDate : Int) : Bool :=
  if fromDate ≠ 0 ∧ itemDate < fromDate then false
  else if toDate ≠ 0 ∧ itemDate > toDate then false
  else true

/-- The loop body for an item that passed the window filter: bump the
counters and fold the item's date into minDate/maxDate (zero means unset). -/
def stepAcc (tr : tagAnalysisResult) (item : Item) : tagAnalysisResult :=
  let itemDate := timeUnix item.creationDate
  { total := tr.total + 1
    negative := tr.negative + (if item.score < 0 then 1 else 0)
    closed := tr.closed + (if 0 < item.closedDate then 1 else 0)
    closedAndNegative :=
      tr.closedAndNegative + (if 0 < item.closedDate ∧ item.score < 0 then 1 else 0)
    minDate := if tr.minDate = 0 ∨ itemDate < tr.minDate then itemDate else tr.minDate
    maxDate := if tr.maxDate = 0 ∨ itemDate > tr.maxDate then itemDate else tr.maxDate }

/-- One iteration of the item loop of `analyzeDir`. -/
def processItem (fromDate toDate : Int) (tr : tagAnalysisResult) (item : Item) :
    tagAnalysisResult :=
  if windowAccept (timeUnix item.creationDate) fromDate toDate then stepAcc tr item else tr

/-- The inner loop of `analyzeDir` over the items of one parsed reply. -/
def analyzeItems (fromDate toDate : Int) (tr : tagAnalysisResult) (items : List Item) :
    tagAnalysisResult :=
  items.foldl (processItem fromDate toDate) tr

/-- Go's `strings.HasSuffix s p`: the characters of `p` are a suffix of the
characters of `s`. -/
def hasSuffixStr (s p : String) : Bool :=
  decide (List.take p.toList.length s.toList.reverse = p.toList.reverse)

/-- `analyzeDir` of the source: fold over the directory entries, processing
the items of every entry whose name has suffix "json"
(`strings.HasSuffix(entry.Name(), "json")`), skipping the rest. -/
def analyzeDir (entries : List SnapEntry) (fromDate toDate : Int) : tagAnalysisResult :=
  entries.foldl
    (fun tr e => if hasSuffixStr e.name "json" then analyzeItems fromDate toDate tr e.items else tr)
    emptyResult

/-- The records `analyzeDir` actually reads: the items of the entries whose
names end in "json", in directory order. -/
def flatRecords (entries : List SnapEntry) : List Item :=
  (entries.filter (fun e => hasSuffixStr e.name "json")).flatMap (fun e => e.items)

/-- The value of a Go float64 division of two non-negative counters:
0/0 is NaN, x/0 with x > 0 is +Inf, otherwise the (exact) quotient. -/
inductive RatioVal where
  | nan : RatioVal
  | inf : RatioVal
  | val : ℚ → RatioVal
deriving DecidableEq, Repr

def goDivFloat (a b : Nat) : RatioVal :=
  if b = 0 then (if a = 0 then RatioVal.nan else RatioVal.inf) else RatioVal.val ((a : ℚ) / b)

/-- One CSV output line of `emitResult`, before string formatting:
the date label, the total, and the three ratio fields. -/
structure EmitLine where
  date : Int
  total : Nat
  negativeRatio : RatioVal
  closedRatio : RatioVal
  closedAndNegativeRatio : RatioVal
deriving DecidableEq, Repr

/-- `emitResult` of the source: compute the three ratios by plain division,
and label the line with `date`, falling back to the result's maxDate when
`date` is the zero time. -/
def emitResult (date : Int) (tr : tagAnalysisResult) : EmitLine :=
  { date := if date = 0 then tr.maxDate else date
    total := tr.total
    negativeRatio := goDivFloat tr.negative tr.total
    closedRatio := goDivFloat tr.closed tr.total
    closedAndNegativeRatio := goDivFloat tr.closedAndNegative tr.total }

/-- The by-month loop `for d := fDate; d.Before(tDate); { endDate := d.AddDate(0,1,0);
...; d = endDate }`, as the list of windows `(d, endDate)` it runs `analyzeDir`
on. The `fuel` argument only bounds the recursion; each iteration advances
`d` by at least a day, so the fuel chosen in `monthBuckets` is never exhausted. -/
def monthBucketsAux : Nat → Int → Int → List (Int × Int)
  | 0, _, _ => []
  | fuel + 1, d, toD =>
    if d < toD then
      (d, addMonthGo d) :: monthBucketsAux fuel (addMonthGo d) toD
    else []

def monthBuckets (d toD : Int) : List (Int × Int) :=
  monthBucketsAux ((toD - d).toNat + 1) d toD

/-- The lines the by-month mode emits for one tag: for each bucket `(d, endDate)`,
the result of `analyzeDir` over that window, labeled `endDate`. -/
def byMonthRun (entries : List SnapEntry) (fromD toD : Int) : List EmitLine :=
  (monthBuckets fromD toD).map (fun b => emitResult b.2 (analyzeDir entries b.1 b.2))

/-- The end-to-end scenario of the spec: two snapshot files in the tag
directory, items with scores [-1, 5, -3] and closed dates [0, 0, 1700000000]
across the two files, all creation dates inside the window. -/
def scenarioEntries : List SnapEntry :=
  [ { name := "page1.json",
      items := [ { score := -1, closedDate := 0, creationDate := 1650000000 },
                 { score := 5, closedDate := 0, creationDate := 1650000001 } ] },
    { name := "page2.json",
      items := [ { score := -3, closedDate := 1700000000, creationDate := 1650000002 } ] } ]

/-- The counter invariant maintained by the aggregation loop. -/
def resInv (tr : tagAnalysisResult) : Prop :=
  tr.negative ≤ tr.total ∧ tr.closed ≤ tr.total ∧
    tr.closedAndNegative ≤ tr.negative ∧ tr.closedAndNegative ≤ tr.closed

lemma stepAcc_total (tr : tagAnalysisResult) (item : Item) :
    (stepAcc tr item).total = tr.total + 1 := rfl

lemma stepAcc_negative (tr : tagAnalysisResult) (item : Item) :
    (stepAcc tr item).negative =
      (if item.score < 0 then tr.negative + 1 else tr.negative) := by
  unfold stepAcc
  dsimp only
  split_ifs <;> omega

lemma stepAcc_closed (tr : tagAnalysisResult) (item : Item) :
    (stepAcc tr item).closed =
      (if 0 < item.closedDate then tr.closed + 1 else tr.closed) := by
  unfold stepAcc
  dsimp only
  split_ifs <;> omega

lemma stepAcc_closedAndNegative (tr : tagAnalysisResult) (item : Item) :
    (stepAcc tr item).closedAndNegative =
      (if 0 < item.closedDate ∧ item.score < 0 then tr.closedAndNegative + 1
       else tr.closedAndNegative) := by
  unfold stepAcc
  dsimp only
  split_ifs <;> omega

lemma stepAcc_inv {tr : tagAnalysisResult} (h : resInv tr) (item : Item) :
    resInv (stepAcc tr item) := by
  obtain ⟨h1, h2, h3, h4⟩ := h
  unfold resInv stepAcc
  refine ⟨?_, ?_, ?_, ?_⟩ <;> dsimp only <;> split_ifs <;> omega

lemma processItem_inv {tr : tagAnalysisResult} (h : resInv tr) (f t : Int) (item : Item) :
    resInv (processItem f t tr item) := by
  unfold processItem
  split
  · exact stepAcc_inv h item
  · exact h

lemma analyzeItems_inv {tr : tagAnalysisResult} (h : resInv tr) (f t : Int)
    (items : List Item) : resInv (analyzeItems f t tr items) := by
  induction items generalizing tr with
  | nil => exact h
  | cons a l ih => exact ih (processItem_inv h f t a)

lemma analyzeDir_inv (entries : List SnapEntry) (f t : Int) :
    resInv (analyzeDir entries f t) := by
  unfold analyzeDir
  have : ∀ (es : List SnapEntry) (tr : tagAnalysisResult), resInv tr →
      resInv (es.foldl
        (fun tr e => if hasSuffixStr e.name "json" then analyzeItems f t tr e.items else tr)
        tr) := by
    intro es
    induction es with
    | nil => intro tr h; exact h
    | cons e l ih =>
      intro tr h
      by_cases he : hasSuffixStr e.name "json" = true
      · simpa [he] using ih _ (analyzeItems_inv h f t e.items)
      · simpa [he] using ih _ h
  exact this _ _ (by constructor <;> simp [emptyResult])

/-- C1: for every accepted record the aggregation increments `total`,
increments `negative` iff the score is negative, `closed` iff the closed date
is positive, `closedAndNegative` iff both hold; and on the two-file scenario
with scores [-1, 5, -3] and closed dates [0, 0, 1700000000] inside the window
the result is total 3, negative 2, closed 1, closedAndNegative 1. -/
theorem c1_aggregation_increments (tr : tagAnalysisResult) (item : Item) (fromD toD : Int)
    (hacc : windowAccept (timeUnix item.creationDate) fromD toD = true) :
    (processItem fromD toD tr item).total = tr.total + 1 ∧
    (processItem fromD toD tr item).negative =
      (if item.score < 0 then tr.negative + 1 else tr.negative) ∧
    (processItem fromD toD tr item).closed =
      (if 0 < item.closedDate then tr.closed + 1 else tr.closed) ∧
    (processItem fromD toD tr item).closedAndNegative =
      (if 0 < item.closedDate ∧ item.score < 0 then tr.closedAndNegative + 1
       else tr.closedAndNegative) ∧
    (analyzeDir scenarioEntries (dateSec 2021 1 1) (dateSec 2024 1 1)).total = 3 ∧
    (analyzeDir scenarioEntries (dateSec 2021 1 1) (dateSec 2024 1 1)).negative = 2 ∧
    (analyzeDir scenarioEntries (dateSec 2021 1 1) (dateSec 2024 1 1)).closed = 1 ∧
    (analyzeDir scenarioEntries (dateSec 2021 1 1) (dateSec 2024 1 1)).closedAndNegative = 1 := by
  rw [processItem, if_pos hacc]
  exact ⟨stepAcc_total tr item, stepAcc_negative tr item, stepAcc_closed tr item,
    stepAcc_closedAndNegative tr item, by decide, by decide, by decide, by decide⟩

theorem c1_aggregation_increments_witness :
    (processItem (dateSec 2021 1 1) (dateSec 2024 1 1) emptyResult
      { score := -1, closedDate := 0, creationDate := 1650000000 }).total = 1 :=
  (c1_aggregation_increments emptyResult
      { score := -1, closedDate := 0, creationDate := 1650000000 }
      (dateSec 2021 1 1) (dateSec 2024 1 1) (by decide)).1

lemma windowAccept_iff (x f t : Int) :
    windowAccept x f t = true ↔ ((f = 0 ∨ f ≤ x) ∧ (t = 0 ∨ x ≤ t)) := by
  unfold windowAccept
  split_ifs with h1 h2 <;> simp <;> omega

/-- C2: the filter accepts a record iff each set bound is satisfied, both
bounds inclusive: a record exactly at `from` or `to` is accepted, one a day
before `from` or a day after `to` is rejected. -/
theorem c2_window_filter (d fromD toD : Int) :
    (windowAccept d fromD toD = true ↔
      (fromD = 0 ∨ fromD ≤ d) ∧ (toD = 0 ∨ d ≤ toD)) ∧
    (fromD ≠ 0 → toD ≠ 0 → fromD ≤ toD →
      windowAccept fromD fromD toD = true ∧
      windowAccept toD fromD toD = true ∧
      windowAccept (fromD - 86400) fromD toD = false ∧
      windowAccept (toD + 86400) fromD toD = false) := by
  refine ⟨windowAccept_iff d fromD toD, fun hf ht hle => ⟨?_, ?_, ?_, ?_⟩⟩
  · exact (windowAccept_iff _ _ _).2 ⟨Or.inr le_rfl, Or.inr hle⟩
  · exact (windowAccept_iff _ _ _).2 ⟨Or.inr hle, Or.inr le_rfl⟩
  · cases h : windowAccept (fromD - 86400) fromD toD with
    | false => rfl
    | true => exact absurd ((windowAccept_iff _ _ _).1 h) (by omega)
  · cases h : windowAccept (toD + 86400) fromD toD with
    | false => rfl
    | true => exact absurd ((windowAccept_iff _ _ _).1 h) (by omega)

theorem c2_window_filter_witness :
    windowAccept (dateSec 2021 1 1) (dateSec 2021 1 1) (dateSec 2021 3 1) = true ∧
    windowAccept (dateSec 2021 1 1 - 86400) (dateSec 2021 1 1) (dateSec 2021 3 1) = false :=
  ⟨((c2_window_filter (dateSec 2021 1 1) (dateSec 2021 1 1) (dateSec 2021 3 1)).2
      (by decide) (by decide) (by decide)).1,
   ((c2_window_filter (dateSec 2021 1 1) (dateSec 2021 1 1) (dateSec 2021 3 1)).2
      (by decide) (by decide) (by decide)).2.2.1⟩

/-- C4: in by-month mode, the buckets for 2021-01-01 .. 2021-03-01 are exactly
[2021-01-01, 2021-02-01) and [2021-02-01, 2021-03-01), and each emitted line
is labeled with the bucket's end date, independent of the data. -/
theorem c4_month_bucket_labels :
    monthBuckets (dateSec 2021 1 1) (dateSec 2021 3 1) =
      [(dateSec 2021 1 1, dateSec 2021 2 1), (dateSec 2021 2 1, dateSec 2021 3 1)] ∧
    ∀ entries : List SnapEntry,
      (byMonthRun entries (dateSec 2021 1 1) (dateSec 2021 3 1)).map EmitLine.date =
        [dateSec 2021 2 1, dateSec 2021 3 1] := by
  have hb : monthBuckets (dateSec 2021 1 1) (dateSec 2021 3 1) =
      [(dateSec 2021 1 1, dateSec 2021 2 1), (dateSec 2021 2 1, dateSec 2021 3 1)] := by decide
  refine ⟨hb, fun entries => ?_⟩
  rw [byMonthRun, hb]
  simp only [List.map_cons, List.map_nil, emitResult]
  rw [if_neg (by decide), if_neg (by decide)]

/-- C7: the counters of every analysis result satisfy negative ≤ total,
closed ≤ total, and closedAndNegative ≤ min negative closed. -/
theorem c7_counter_invariants (entries : List SnapEntry) (f t : Int) :
    (analyzeDir entries f t).negative ≤ (analyzeDir entries f t).total ∧
    (analyzeDir entries f t).closed ≤ (analyzeDir entries f t).total ∧
    (analyzeDir entries f t).closedAndNegative ≤
      min (analyzeDir entries f t).negative (analyzeDir entries f t).closed := by
  have h := analyzeDir_inv entries f t
  exact ⟨h.1, h.2.1, le_min h.2.2.1 h.2.2.2⟩

lemma analyzeItems_append (f t : Int) (tr : tagAnalysisResult) (l₁ l₂ : List Item) :
    analyzeItems f t tr (l₁ ++ l₂) = analyzeItems f t (analyzeItems f t tr l₁) l₂ := by
  unfold analyzeItems
  exact List.foldl_append _ _ _ _

lemma analyzeDir_eq_flat (entries : List SnapEntry) (f t : Int) :
    analyzeDir entries f t = analyzeItems f t emptyResult (flatRecords entries) := by
  unfold analyzeDir
  have key : ∀ (es : List SnapEntry) (tr : tagAnalysisResult),
      es.foldl
        (fun tr e => if hasSuffixStr e.name "json" then analyzeItems f t tr e.items else tr) tr
      = analyzeItems f t tr (flatRecords es) := by
    intro es
    induction es with
    | nil => intro tr; rfl
    | cons e l ih =>
      intro tr
      by_cases he : hasSuffixStr e.name "json" = true
      · simp only [List.foldl_cons, he, if_true, flatRecords, List.filter_cons,
          List.flatMap_cons, ih]
        rw [← analyzeItems_append]
      · simp only [List.foldl_cons, he, if_false, ih]
        first
          | rfl
          | simp [flatRecords, he]
  exact key entries emptyResult

/-- C5 fails as stated: the source checks `strings.HasSuffix(name, "json")`,
without the dot, so the entry named "datajson" does not end in ".json" and is
nevertheless parsed and contributes its record. -/
theorem c5_snapshot_selection_counterexample :
    hasSuffixStr "datajson" ".json" = false ∧
    (analyzeDir [{ name := "datajson",
                   items := [{ score := 1, closedDate := 0, creationDate := 100 }] }] 0 0).total
      = 1 := by
  constructor
  · decide
  · decide

/-- C5 (amended): the reader parses exactly those entries whose names end in
"json" (no dot required); every other entry is skipped and contributes no
records: the analysis equals the fold over the items of the suffix-"json"
entries alone. -/
theorem c5_snapshot_selection (entries : List SnapEntry) (fromD toD : Int) :
    analyzeDir entries fromD toD =
      analyzeItems fromD toD emptyResult
        ((entries.filter (fun e => hasSuffixStr e.name "json")).flatMap (fun e => e.items)) :=
  analyzeDir_eq_flat entries fromD toD

/-- C6 fails as stated: the code represents "unset" by the zero `time.Time`,
and 0001-01-01 parses to exactly that zero value, so a to-bound legitimately
supplied as 0001-01-01 is treated as unset: a record dated long after it is
still accepted. -/
theorem c6_zero_sentinel_counterexample :
    parseDate "0001-01-01" = 0 ∧
    parseDate "0001-01-01" < timeUnix 1700000000 ∧
    windowAccept (timeUnix 1700000000) 0 (parseDate "0001-01-01") = true := by
  refine ⟨by decide, by decide, by decide⟩

/-- C6 (amended): an unset bound is represented by the zero time value
(0001-01-01 00:00:00 UTC); a bound supplied as 0001-01-01 parses to that zero
value and therefore imposes no constraint on the window. -/
theorem c6_zero_sentinel (d toD fromD : Int) :
    parseDate "0001-01-01" = 0 ∧
    ((toD = 0 ∨ d ≤ toD) → windowAccept d (parseDate "0001-01-01") toD = true) ∧
    ((fromD = 0 ∨ fromD ≤ d) → windowAccept d fromD (parseDate "0001-01-01") = true) := by
  have h0 : parseDate "0001-01-01" = 0 := by decide
  refine ⟨h0, ?_, ?_⟩
  · intro hb
    rw [h0]
    exact (windowAccept_iff _ _ _).2 ⟨Or.inl rfl, hb⟩
  · intro hb
    rw [h0]
    exact (windowAccept_iff _ _ _).2 ⟨hb, Or.inl rfl⟩

theorem c6_zero_sentinel_witness :
    windowAccept 5 (parseDate "0001-01-01") 0 = true ∧
    windowAccept 5 0 (parseDate "0001-01-01") = true :=
  ⟨(c6_zero_sentinel 5 0 0).2.1 (Or.inl rfl), (c6_zero_sentinel 5 0 0).2.2 (Or.inl rfl)⟩

/-- C10: any string that does not parse as a YYYY-MM-DD date makes `parseDate`
return the zero time, and a zero bound imposes no constraint: an invalid
-fromdate or -todate is silently accepted and leaves that side of the window
unbounded. -/
theorem c10_invalid_date_unset (s : String) (h : parseYMD s = none) :
    parseDate s = 0 ∧
    (∀ d toD : Int, (toD = 0 ∨ d ≤ toD) → windowAccept d (parseDate s) toD = true) ∧
    (∀ d fromD : Int, (fromD = 0 ∨ fromD ≤ d) → windowAccept d fromD (parseDate s) = true) := by
  have h0 : parseDate s = 0 := by unfold parseDate; rw [h]
  refine ⟨h0, ?_, ?_⟩
  · intro d toD hb
    rw [h0]
    exact (windowAccept_iff _ _ _).2 ⟨Or.inl rfl, hb⟩
  · intro d fromD hb
    rw [h0]
    exact (windowAccept_iff _ _ _).2 ⟨hb, Or.inl rfl⟩

theorem c10_invalid_date_unset_witness :
    parseDate "2021-13-05" = 0 ∧ windowAccept 42 (parseDate "2021-13-05") 0 = true :=
  ⟨(c10_invalid_date_unset "2021-13-05" (by decide)).1,
   (c10_invalid_date_unset "2021-13-05" (by decide)).2.1 42 0 (Or.inl rfl)⟩

/-- C3 fails as stated: on an empty tag directory the program emits an
ordinary line whose ratio fields are the float NaN produced by 0/0; nothing
in the output is marked "no data". -/
theorem c3_no_data_counterexample :
    emitResult 0 (analyzeDir [] 0 0) =
      { date := 0, total := 0, negativeRatio := RatioVal.nan,
        closedRatio := RatioVal.nan, closedAndNegativeRatio := RatioVal.nan } := rfl

/-- C3 (amended): when a window matches zero records the program does not
crash: every ratio is the 0/0 float NaN, and the emitted line is an ordinary
CSV line with NaN ratio fields and no explicit no-data marking. -/
theorem c3_total_zero_emits_nan (entries : List SnapEntry) (fromD toD date : Int)
    (h : (analyzeDir entries fromD toD).total = 0) :
    emitResult date (analyzeDir entries fromD toD) =
      { date := if date = 0 then (analyzeDir entries fromD toD).maxDate else date,
        total := 0,
        negativeRatio := RatioVal.nan, closedRatio := RatioVal.nan,
        closedAndNegativeRatio := RatioVal.nan } := by
  have hinv := analyzeDir_inv entries fromD toD
  unfold resInv at hinv
  obtain ⟨h1, h2, h3, h4⟩ := hinv
  have hn : (analyzeDir entries fromD toD).negative = 0 := by omega
  have hc : (analyzeDir entries fromD toD).closed = 0 := by omega
  have hcn : (analyzeDir entries fromD toD).closedAndNegative = 0 := by omega
  unfold emitResult
  rw [h, hn, hc, hcn]
  rfl

theorem c3_total_zero_emits_nan_witness :
    emitResult 7 (analyzeDir [] 0 0) =
      { date := 7, total := 0, negativeRatio := RatioVal.nan,
        closedRatio := RatioVal.nan, closedAndNegativeRatio := RatioVal.nan } := by
  have h := c3_total_zero_emits_nan [] 0 0 7 (by decide)
  simpa using h

lemma monthBucketsAux_head (fuel : Nat) (d toD : Int) (q : Int × Int)
    (h : (monthBucketsAux fuel d toD)[0]? = some q) : q.1 = d := by
  cases fuel with
  | zero => simp [monthBucketsAux] at h
  | succ n =>
    rw [monthBucketsAux] at h
    by_cases hd : d < toD
    · rw [if_pos hd] at h
      simp only [List.getElem?_cons_zero, Option.some.injEq] at h
      rw [← h]
    · rw [if_neg hd] at h
      simp at h

lemma monthBucketsAux_adjacent :
    ∀ (fuel : Nat) (d toD : Int) (i : Nat) (p q : Int × Int),
      (monthBucketsAux fuel d toD)[i]? = some p →
      (monthBucketsAux fuel d toD)[i + 1]? = some q → q.1 = p.2 := by
  intro fuel
  induction fuel with
  | zero =>
    intro d toD i p q h1 _
    simp [monthBucketsAux] at h1
  | succ n ih =>
    intro d toD i p q h1 h2
    rw [monthBucketsAux] at h1 h2
    by_cases hd : d < toD
    · rw [if_pos hd] at h1 h2
      cases i with
      | zero =>
        simp only [List.getElem?_cons_zero, Option.some.injEq] at h1
        rw [List.getElem?_cons_succ] at h2
        rw [← h1]
        exact monthBucketsAux_head n (addMonthGo d) toD q h2
      | succ j =>
        rw [List.getElem?_cons_succ] at h1 h2
        exact ih _ _ _ _ _ h1 h2
    · rw [if_neg hd] at h1
      simp at h1

/-- C9: successive by-month buckets share their boundary date (the end of one
is the start of the next), and since both filter bounds are inclusive, a
record whose creation instant is exactly that interior boundary passes the
window filter of both adjacent buckets, so it is counted in both. -/
theorem c9_boundary_double_count (fromD toD : Int) (i : Nat) (a b c y u : Int)
    (h1 : (monthBuckets fromD toD)[i]? = some (a, b))
    (h2 : (monthBuckets fromD toD)[i + 1]? = some (c, y))
    (hu : timeUnix u = b) (hab : a ≤ b) (hby : b ≤ y) :
    c = b ∧
    windowAccept (timeUnix u) a b = true ∧
    windowAccept (timeUnix u) c y = true := by
  have hc : c = b := monthBucketsAux_adjacent _ fromD toD i (a, b) (c, y) h1 h2
  refine ⟨hc, ?_, ?_⟩
  · rw [hu]
    exact (windowAccept_iff _ _ _).2 ⟨Or.inr hab, Or.inr le_rfl⟩
  · rw [hu, hc]
    exact (windowAccept_iff _ _ _).2 ⟨Or.inr le_rfl, Or.inr hby⟩

theorem c9_boundary_double_count_witness :
    windowAccept (timeUnix 1612137600) (dateSec 2021 1 1) (dateSec 2021 2 1) = true ∧
    windowAccept (timeUnix 1612137600) (dateSec 2021 2 1) (dateSec 2021 3 1) = true :=
  ⟨(c9_boundary_double_count (dateSec 2021 1 1) (dateSec 2021 3 1) 0
      (dateSec 2021 1 1) (dateSec 2021 2 1) (dateSec 2021 2 1) (dateSec 2021 3 1) 1612137600
      (by decide) (by decide) (by decide) (by decide) (by decide)).2.1,
   (c9_boundary_double_count (dateSec 2021 1 1) (dateSec 2021 3 1) 0
      (dateSec 2021 1 1) (dateSec 2021 2 1) (dateSec 2021 2 1) (dateSec 2021 3 1) 1612137600
      (by decide) (by decide) (by decide) (by decide) (by decide)).2.2⟩

/-- The minDate update of the item loop, iterated over a list of item dates
(0 plays the role of Go's zero time, "not yet set"). -/
def minDateFold (m : Int) (xs : List Int) : Int :=
  xs.foldl (fun m x => if m = 0 ∨ x < m then x else m) m

/-- The maxDate update of the item loop, iterated over a list of item dates. -/
def maxDateFold (m : Int) (xs : List Int) : Int :=
  xs.foldl (fun m x => if m = 0 ∨ x > m then x else m) m

lemma analyzeItems_filter (f t : Int) :
    ∀ (L : List Item) (tr : tagAnalysisResult),
      analyzeItems f t tr L =
        (L.filter (fun it => windowAccept (timeUnix it.creationDate) f t)).foldl stepAcc tr := by
  intro L
  induction L with
  | nil => intro tr; rfl
  | cons a l ih =>
    intro tr
    by_cases ha : windowAccept (timeUnix a.creationDate) f t = true
    · rw [List.filter_cons_of_pos (by simpa using ha)]
      show analyzeItems f t (processItem f t tr a) l = _
      rw [processItem, if_pos ha, ih]
      rfl
    · rw [List.filter_cons_of_neg (by simpa using ha)]
      show analyzeItems f t (processItem f t tr a) l = _
      rw [processItem, if_neg ha, ih]

lemma stepFold_total : ∀ (L : List Item) (tr : tagAnalysisResult),
    (L.foldl stepAcc tr).total = tr.total + L.length := by
  intro L
  induction L with
  | nil => intro tr; simp
  | cons a l ih =>
    intro tr
    show (l.foldl stepAcc (stepAcc tr a)).total = _
    rw [ih, stepAcc_total, List.length_cons]
    omega

lemma stepFold_negative : ∀ (L : List Item) (tr : tagAnalysisResult),
    (L.foldl stepAcc tr).negative =
      tr.negative + L.countP (fun it => decide (it.score < 0)) := by
  intro L
  induction L with
  | nil => intro tr; simp
  | cons a l ih =>
    intro tr
    show (l.foldl stepAcc (stepAcc tr a)).negative = _
    rw [ih, stepAcc_negative, List.countP_cons]
    by_cases h : a.score < 0 <;> (simp [h]; try omega)

lemma stepFold_closed : ∀ (L : List Item) (tr : tagAnalysisResult),
    (L.foldl stepAcc tr).closed =
      tr.closed + L.countP (fun it => decide (0 < it.closedDate)) := by
  intro L
  induction L with
  | nil => intro tr; simp
  | cons a l ih =>
    intro tr
    show (l.foldl stepAcc (stepAcc tr a)).closed = _
    rw [ih, stepAcc_closed, List.countP_cons]
    by_cases h : 0 < a.closedDate <;> (simp [h]; try omega)

lemma stepFold_closedAndNegative : ∀ (L : List Item) (tr : tagAnalysisResult),
    (L.foldl stepAcc tr).closedAndNegative =
      tr.closedAndNegative + L.countP (fun it => decide (0 < it.closedDate ∧ it.score < 0)) := by
  intro L
  induction L with
  | nil => intro tr; simp
  | cons a l ih =>
    intro tr
    show (l.foldl stepAcc (stepAcc tr a)).closedAndNegative = _
    rw [ih, stepAcc_closedAndNegative, List.countP_cons]
    by_cases h : 0 < a.closedDate ∧ a.score < 0 <;> (simp [h]; try omega)

lemma stepFold_minDate : ∀ (L : List Item) (tr : tagAnalysisResult),
    (L.foldl stepAcc tr).minDate =
      minDateFold tr.minDate (L.map (fun it => timeUnix it.creationDate)) := by
  intro L
  induction L with
  | nil => intro tr; rfl
  | cons a l ih =>
    intro tr
    show (l.foldl stepAcc (stepAcc tr a)).minDate = _
    rw [ih]
    rfl

lemma stepFold_maxDate : ∀ (L : List Item) (tr : tagAnalysisResult),
    (L.foldl stepAcc tr).maxDate =
      maxDateFold tr.maxDate (L.map (fun it => timeUnix it.creationDate)) := by
  intro L
  induction L with
  | nil => intro tr; rfl
  | cons a l ih =>
    intro tr
    show (l.foldl stepAcc (stepAcc tr a)).maxDate = _
    rw [ih]
    rfl

lemma minDateFold_spec : ∀ (xs : List Int) (m : Int), m ≠ 0 → (∀ x ∈ xs, x ≠ 0) →
    minDateFold m xs ∈ m :: xs ∧ ∀ x ∈ m :: xs, minDateFold m xs ≤ x := by
  intro xs
  induction xs with
  | nil =>
    intro m _ _
    refine ⟨List.mem_cons_self m [], ?_⟩
    intro x hx
    simp only [List.mem_cons, List.not_mem_nil, or_false] at hx
    subst hx
    exact le_of_eq rfl
  | cons a l ih =>
    intro m hm hall
    have ha : a ≠ 0 := hall a (List.mem_cons_self a l)
    have hl : ∀ x ∈ l, x ≠ 0 := fun x hx => hall x (List.mem_cons_of_mem a hx)
    have hfold : minDateFold m (a :: l) = minDateFold (if m = 0 ∨ a < m then a else m) l := rfl
    by_cases hc : m = 0 ∨ a < m
    · have ham : a < m := hc.resolve_left hm
      rw [if_pos hc] at hfold
      obtain ⟨hmem, hlb⟩ := ih a ha hl
      constructor
      · rw [hfold]
        exact List.mem_cons_of_mem m hmem
      · intro x hx
        rw [hfold]
        rcases List.mem_cons.mp hx with hx | hx
        · subst hx
          have := hlb a (List.mem_cons_self a l)
          omega
        · exact hlb x hx
    · have ham : m ≤ a := by
        push_neg at hc
        exact hc.2
      rw [if_neg hc] at hfold
      obtain ⟨hmem, hlb⟩ := ih m hm hl
      constructor
      · rw [hfold]
        rcases List.mem_cons.mp hmem with h | h
        · exact List.mem_cons.mpr (Or.inl h)
        · exact List.mem_cons_of_mem m (List.mem_cons_of_mem a h)
      · intro x hx
        rw [hfold]
        rcases List.mem_cons.mp hx with hx | hx
        · subst hx
          exact hlb x (List.mem_cons_self x l)
        · rcases List.mem_cons.mp hx with hx | hx
          · subst hx
            have := hlb m (List.mem_cons_self m l)
            omega
          · exact hlb x (List.mem_cons_of_mem m hx)

lemma maxDateFold_spec : ∀ (xs : List Int) (m : Int), m ≠ 0 → (∀ x ∈ xs, x ≠ 0) →
    maxDateFold m xs ∈ m :: xs ∧ ∀ x ∈ m :: xs, x ≤ maxDateFold m xs := by
  intro xs
  induction xs with
  | nil =>
    intro m _ _
    refine ⟨List.mem_cons_self m [], ?_⟩
    intro x hx
    simp only [List.mem_cons, List.not_mem_nil, or_false] at hx
    subst hx
    exact le_of_eq rfl
  | cons a l ih =>
    intro m hm hall
    have ha : a ≠ 0 := hall a (List.mem_cons_self a l)
    have hl : ∀ x ∈ l, x ≠ 0 := fun x hx => hall x (List.mem_cons_of_mem a hx)
    have hfold : maxDateFold m (a :: l) = maxDateFold (if m = 0 ∨ a > m then a else m) l := rfl
    by_cases hc : m = 0 ∨ a > m
    · have ham : m < a := hc.resolve_left hm
      rw [if_pos hc] at hfold
      obtain ⟨hmem, hub⟩ := ih a ha hl
      constructor
      · rw [hfold]
        exact List.mem_cons_of_mem m hmem
      · intro x hx
        rw [hfold]
        rcases List.mem_cons.mp hx with hx | hx
        · subst hx
          have := hub a (List.mem_cons_self a l)
          omega
        · exact hub x hx
    · have ham : a ≤ m := by
        push_neg at hc
        exact hc.2
      rw [if_neg hc] at hfold
      obtain ⟨hmem, hub⟩ := ih m hm hl
      constructor
      · rw [hfold]
        rcases List.mem_cons.mp hmem with h | h
        · exact List.mem_cons.mpr (Or.inl h)
        · exact List.mem_cons_of_mem m (List.mem_cons_of_mem a h)
      · intro x hx
        rw [hfold]
        rcases List.mem_cons.mp hx with hx | hx
        · subst hx
          exact hub x (List.mem_cons_self x l)
        · rcases List.mem_cons.mp hx with hx | hx
          · subst hx
            have := hub m (List.mem_cons_self m l)
            omega
          · exact hub x (List.mem_cons_of_mem m hx)

lemma minDateFold_cons_zero (a : Int) (l : List Int) :
    minDateFold 0 (a :: l) = minDateFold a l := by
  unfold minDateFold
  rw [List.foldl_cons, if_pos (Or.inl rfl)]

lemma maxDateFold_cons_zero (a : Int) (l : List Int) :
    maxDateFold 0 (a :: l) = maxDateFold a l := by
  unfold maxDateFold
  rw [List.foldl_cons, if_pos (Or.inl rfl)]

lemma minDateFold_zero_perm (xs ys : List Int) (hperm : xs.Perm ys)
    (hxs : ∀ x ∈ xs, x ≠ 0) : minDateFold 0 xs = minDateFold 0 ys := by
  have hys : ∀ x ∈ ys, x ≠ 0 := fun x hx => hxs x (hperm.mem_iff.mpr hx)
  cases xs with
  | nil =>
    have h : ys = [] := List.Perm.eq_nil hperm.symm
    subst h
    rfl
  | cons a l =>
    cases ys with
    | nil => exact absurd (List.Perm.eq_nil hperm) (by simp)
    | cons b k =>
      have ha : a ≠ 0 := hxs a (List.mem_cons_self a l)
      have hl : ∀ x ∈ l, x ≠ 0 := fun x hx => hxs x (List.mem_cons_of_mem a hx)
      have hb : b ≠ 0 := hys b (List.mem_cons_self b k)
      have hk : ∀ x ∈ k, x ≠ 0 := fun x hx => hys x (List.mem_cons_of_mem b hx)
      obtain ⟨hm1, hb1⟩ := minDateFold_spec l a ha hl
      obtain ⟨hm2, hb2⟩ := minDateFold_spec k b hb hk
      rw [minDateFold_cons_zero, minDateFold_cons_zero]
      exact le_antisymm (hb1 _ (hperm.mem_iff.mpr hm2)) (hb2 _ (hperm.mem_iff.mp hm1))

lemma maxDateFold_zero_perm (xs ys : List Int) (hperm : xs.Perm ys)
    (hxs : ∀ x ∈ xs, x ≠ 0) : maxDateFold 0 xs = maxDateFold 0 ys := by
  have hys : ∀ x ∈ ys, x ≠ 0 := fun x hx => hxs x (hperm.mem_iff.mpr hx)
  cases xs with
  | nil =>
    have h : ys = [] := List.Perm.eq_nil hperm.symm
    subst h
    rfl
  | cons a l =>
    cases ys with
    | nil => exact absurd (List.Perm.eq_nil hperm) (by simp)
    | cons b k =>
      have ha : a ≠ 0 := hxs a (List.mem_cons_self a l)
      have hl : ∀ x ∈ l, x ≠ 0 := fun x hx => hxs x (List.mem_cons_of_mem a hx)
      have hb : b ≠ 0 := hys b (List.mem_cons_self b k)
      have hk : ∀ x ∈ k, x ≠ 0 := fun x hx => hys x (List.mem_cons_of_mem b hx)
      obtain ⟨hm1, hb1⟩ := maxDateFold_spec l a ha hl
      obtain ⟨hm2, hb2⟩ := maxDateFold_spec k b hb hk
      rw [maxDateFold_cons_zero, maxDateFold_cons_zero]
      exact le_antisymm (hb2 _ (hperm.mem_iff.mp hm1)) (hb1 _ (hperm.mem_iff.mpr hm2))

lemma tagAnalysisResult_ext {r₁ r₂ : tagAnalysisResult}
    (h1 : r₁.total = r₂.total) (h2 : r₁.negative = r₂.negative)
    (h3 : r₁.closed = r₂.closed) (h4 : r₁.closedAndNegative = r₂.closedAndNegative)
    (h5 : r₁.minDate = r₂.minDate) (h6 : r₁.maxDate = r₂.maxDate) : r₁ = r₂ := by
  cases r₁
  cases r₂
  simp_all


/-- C8 fails as stated: minDate tracking uses the zero time as its "unset"
sentinel, so a record whose creation instant is exactly the zero time
(creationDate = -62135596800) resets the running minimum depending on its
position: the two orders below hold the same multiset of records yet produce
different results. -/
theorem c8_permutation_counterexample :
    (flatRecords
        [{ name := "a.json",
           items := [{ score := 1, closedDate := 0, creationDate := -62135596800 },
                     { score := 1, closedDate := 0, creationDate := 1000 }] }]).Perm
      (flatRecords
        [{ name := "a.json",
           items := [{ score := 1, closedDate := 0, creationDate := 1000 },
                     { score := 1, closedDate := 0, creationDate := -62135596800 }] }]) ∧
    analyzeDir
        [{ name := "a.json",
           items := [{ score := 1, closedDate := 0, creationDate := -62135596800 },
                     { score := 1, closedDate := 0, creationDate := 1000 }] }] 0 0 ≠
      analyzeDir
        [{ name := "a.json",
           items := [{ score := 1, closedDate := 0, creationDate := 1000 },
                     { score := 1, closedDate := 0, creationDate := -62135596800 }] }] 0 0 := by
  constructor
  · exact List.Perm.swap _ _ _
  · decide

/-- C8 (amended): for any two directory contents whose processed records are
permutations of one another, the four counters always agree; and if no record's
creation instant is the zero time (creationDate ≠ -62135596800), the whole
result — minDate and maxDate included — agrees. -/
theorem c8_permutation_invariance (e₁ e₂ : List SnapEntry) (fromD toD : Int)
    (hperm : (flatRecords e₁).Perm (flatRecords e₂)) :
    ((analyzeDir e₁ fromD toD).total = (analyzeDir e₂ fromD toD).total ∧
     (analyzeDir e₁ fromD toD).negative = (analyzeDir e₂ fromD toD).negative ∧
     (analyzeDir e₁ fromD toD).closed = (analyzeDir e₂ fromD toD).closed ∧
     (analyzeDir e₁ fromD toD).closedAndNegative =
       (analyzeDir e₂ fromD toD).closedAndNegative) ∧
    ((∀ it ∈ flatRecords e₁, timeUnix it.creationDate ≠ 0) →
      analyzeDir e₁ fromD toD = analyzeDir e₂ fromD toD) := by
  have hA1 : analyzeDir e₁ fromD toD =
      ((flatRecords e₁).filter
        (fun it => windowAccept (timeUnix it.creationDate) fromD toD)).foldl
        stepAcc emptyResult := by
    rw [analyzeDir_eq_flat]
    exact analyzeItems_filter fromD toD _ _
  have hA2 : analyzeDir e₂ fromD toD =
      ((flatRecords e₂).filter
        (fun it => windowAccept (timeUnix it.creationDate) fromD toD)).foldl
        stepAcc emptyResult := by
    rw [analyzeDir_eq_flat]
    exact analyzeItems_filter fromD toD _ _
  have hF : ((flatRecords e₁).filter
      (fun it => windowAccept (timeUnix it.creationDate) fromD toD)).Perm
      ((flatRecords e₂).filter
      (fun it => windowAccept (timeUnix it.creationDate) fromD toD)) :=
    hperm.filter _
  constructor
  · refine ⟨?_, ?_, ?_, ?_⟩
    · rw [hA1, hA2, stepFold_total, stepFold_total, hF.length_eq]
    · rw [hA1, hA2, stepFold_negative, stepFold_negative, hF.countP_eq]
    · rw [hA1, hA2, stepFold_closed, stepFold_closed, hF.countP_eq]
    · rw [hA1, hA2, stepFold_closedAndNegative, stepFold_closedAndNegative, hF.countP_eq]
  · intro hall
    have hnz : ∀ x ∈ ((flatRecords e₁).filter
        (fun it => windowAccept (timeUnix it.creationDate) fromD toD)).map
        (fun it => timeUnix it.creationDate), x ≠ 0 := by
      intro x hx
      obtain ⟨it, hit, hxit⟩ := List.mem_map.mp hx
      rw [← hxit]
      exact hall it (List.mem_of_mem_filter hit)
    apply tagAnalysisResult_ext
    · rw [hA1, hA2, stepFold_total, stepFold_total, hF.length_eq]
    · rw [hA1, hA2, stepFold_negative, stepFold_negative, hF.countP_eq]
    · rw [hA1, hA2, stepFold_closed, stepFold_closed, hF.countP_eq]
    · rw [hA1, hA2, stepFold_closedAndNegative, stepFold_closedAndNegative, hF.countP_eq]
    · rw [hA1, hA2, stepFold_minDate, stepFold_minDate]
      exact minDateFold_zero_perm _ _ (hF.map _) hnz
    · rw [hA1, hA2, stepFold_maxDate, stepFold_maxDate]
      exact maxDateFold_zero_perm _ _ (hF.map _) hnz

/-- The scenario directory with its two snapshot files listed in the other
order. -/
def scenarioSwapped : List SnapEntry :=
  [ { name := "page2.json",
      items := [ { score := -3, closedDate := 1700000000, creationDate := 1650000002 } ] },
    { name := "page1.json",
      items := [ { score := -1, closedDate := 0, creationDate := 1650000000 },
                 { score := 5, closedDate := 0, creationDate := 1650000001 } ] } ]

theorem c8_permutation_invariance_witness :
    analyzeDir scenarioEntries (dateSec 2021 1 1) (dateSec 2024 1 1) =
      analyzeDir scenarioSwapped (dateSec 2021 1 1) (dateSec 2024 1 1) :=
  (c8_permutation_invariance scenarioEntries scenarioSwapped
      (dateSec 2021 1 1) (dateSec 2024 1 1) (by decide)).2 (by decide)

end SOTag
